import Mathlib

/-!
Verification of the my-lead-engine enrichment platform core.

Shallow embedding of the Python sources:
  scrapegoat/app/pipeline/engine.py, station.py, router.py,
  scrapegoat/app/pipeline/stations/enrichment.py,
  scrapegoat/app/enrichment/telnyx_gatekeep.py, reconciler.py, database.py,
  chimera_brain/hive_mind.py, chimera-core/visibility_check.py.

Python dict payloads are modelled as association lists of `Val` (a Python
value: string, int, rational/float, bool, or None) with dict-style get/set.
External services (Telnyx HTTP, Redis, PostgreSQL, the vision RPC) are
modelled by passing their observable outcome as an explicit argument.
-/

namespace LeadEngine

/-- A Python value as it appears in lead/context dictionaries. -/
inductive Val where
  | vStr (s : String)
  | vInt (n : Int)
  | vRat (q : Rat)
  | vBool (b : Bool)
  | vNone
deriving DecidableEq

open Val

/-- Python truthiness of a `Val` (empty string, 0, False, None are falsy). -/
def truthy : Val → Bool
  | vStr s => !(s == "")
  | vInt n => !(n == 0)
  | vRat q => !(q == 0)
  | vBool b => b
  | vNone => false

/-- Python `a or b` on values: the first truthy operand, else `b`. -/
def orV (a b : Val) : Val := if truthy a then a else b

/-- Python `str()` / f-string rendering of a `Val`. -/
def pyStr : Val → String
  | vStr s => s
  | vInt n => toString n
  | vRat q => toString q
  | vBool true => "True"
  | vBool false => "False"
  | vNone => "None"

/-- Python `str.strip()`: drop leading and trailing whitespace. -/
def pyStrip (s : String) : String :=
  ⟨((s.toList.dropWhile Char.isWhitespace).reverse.dropWhile
      Char.isWhitespace).reverse⟩

/-- A Python dict with string keys, as an association list with unique keys
maintained by `aset`. -/
abbrev AList := List (String × Val)

/-- Dict lookup: `d.get(k)` returning `none` when the key is absent. -/
def aget : AList → String → Option Val
  | [], _ => none
  | (k0, v0) :: rest, k => if k0 = k then some v0 else aget rest k

/-- Dict assignment `d[k] = v`: replaces the first binding of `k` or appends. -/
def aset : AList → String → Val → AList
  | [], k, v => [(k, v)]
  | (k0, v0) :: rest, k, v =>
    if k0 = k then (k, v) :: rest else (k0, v0) :: aset rest k v

/-- `d.get(k)` collapsing a missing key to Python `None`. -/
def getV (d : AList) (k : String) : Val := (aget d k).getD vNone

/-- `d.get(k, dflt)`. -/
def getVD (d : AList) (k : String) (dflt : Val) : Val := (aget d k).getD dflt

/-- Right-biased merge: `base.update(upd)` — every binding of `upd` is written
into `base` in order (engine.py merges station output into the context). -/
def amerge (base upd : AList) : AList :=
  upd.foldl (fun d kv => aset d kv.1 kv.2) base

/-- Stop conditions returned by a station (pipeline/types.py is referenced by
engine.py and station.py; spec section 3 fixes the three values). -/
inductive StopCondition where
  | CONTINUE
  | SKIP_REMAINING
  | FAIL
deriving DecidableEq

open StopCondition

/-- Modelled from the spec: the Pipeline Context of section 3 (pipeline/types.py
is not in the tree; engine.py and station.py use its `data`, `total_cost`,
`budget_limit`, `history`, `errors`, `available_fields`, `can_afford` and
`update` members): a mutable keyed record of accumulated fields, a running
cost total, a budget ceiling, a history of executed stations with outcomes,
and an error list. -/
structure PipelineContext where
  data : AList
  total_cost : Rat
  budget_limit : Rat
  history : List (String × StopCondition)
  errors : List String
deriving DecidableEq

/-- Modelled from the spec: "the set of fields currently present" in the
context's keyed record. -/
def availableFields (ctx : PipelineContext) : List String :=
  ctx.data.map Prod.fst

/-- Modelled from the spec: a station is affordable iff
`cost_so_far + cost_estimate <= budget` (section 3, Station Contract; the
negation is logged by station.py as `total + estimate > limit`). -/
def canAfford (ctx : PipelineContext) (cost : Rat) : Bool :=
  ctx.total_cost + cost ≤ ctx.budget_limit

/-- Modelled from the spec: `ctx.update(result_data, station, cost, condition)`
of section 4.1 step 4 — merge new fields into the record, commit the cost,
append a history entry. -/
def ctxUpdate (ctx : PipelineContext) (newData : AList) (station : String)
    (cost : Rat) (cond : StopCondition) : PipelineContext :=
  { ctx with
    data := amerge ctx.data newData
    total_cost := ctx.total_cost + cost
    history := ctx.history ++ [(station, cond)] }

/-- Outcome of one invocation of a station's `process` on the current data:
a normal return, a raised ChimeraEnrichmentError, or any other exception. -/
inductive Behavior where
  | ret (data : AList) (cond : StopCondition)
  | throwStructured (step reason : String) (fix : Option String)
  | throwUnstructured (msg : String)

/-- A pipeline station: contract (station.py) plus the behavior of its
`process` body as a function of the context data. -/
structure StationSpec where
  name : String
  required_inputs : List String
  cost_estimate : Rat
  behavior : AList → Behavior

/-- The error message the engine records for a ChimeraEnrichmentError
(engine.py lines 102-104). -/
def structuredErrMsg (step reason : String) (fix : Option String) : String :=
  reason ++ " (step=" ++ step ++ ")"
    ++ (match fix with
        | some f => " [suggested_fix: " ++ f ++ "]"
        | none => "")

/-- `PipelineStation.execute` (station.py lines 59-84): prerequisite check
(missing inputs → FAIL without invoking `process`), then budget check
(→ SKIP_REMAINING), then the station body, whose exceptions propagate. -/
def stationExecute (s : StationSpec) (ctx : PipelineContext) :
    Except String (AList × StopCondition) :=
  if !(s.required_inputs.all fun f => (availableFields ctx).contains f) then
    .ok ([], FAIL)
  else if !(canAfford ctx s.cost_estimate) then
    .ok ([], SKIP_REMAINING)
  else
    match s.behavior ctx.data with
    | .ret d c => .ok (d, c)
    | .throwStructured step reason fix => .error (structuredErrMsg step reason fix)
    | .throwUnstructured m => .error m

/-- One iteration of the engine's per-station loop (engine.py lines 78-139):
on a returned pair the cost estimate is committed via `ctx.update` and the
loop stops iff the condition is SKIP_REMAINING; on an exception the message
is appended to the error list (and no cost is committed). Returns the new
context and whether the loop breaks. -/
def engineStep (ctx : PipelineContext) (s : StationSpec) :
    PipelineContext × Bool :=
  match stationExecute s ctx with
  | .ok (d, c) => (ctxUpdate ctx d s.name s.cost_estimate c, c == SKIP_REMAINING)
  | .error m => ({ ctx with errors := ctx.errors ++ [m] }, false)

/-- The engine's station loop (engine.py lines 68-139). -/
def runStations : PipelineContext → List StationSpec → PipelineContext
  | ctx, [] => ctx
  | ctx, s :: rest =>
    let step := engineStep ctx s
    if step.2 then step.1 else runStations step.1 rest

/-- Pipeline metadata attached to the final record (engine.py lines 146-149). -/
def addMeta (data : AList) (cost : Rat) (stations errors : Nat) : AList :=
  aset (aset (aset data "_pipeline_cost" (vRat cost))
      "_pipeline_stations_executed" (vInt stations))
    "_pipeline_errors" (vInt errors)

/-- Name normalization before the loop (engine.py lines 56-61): alias
fullName/full_name/Name, else firstName+lastName variants, into `name`. -/
def normalizeName (data : AList) : AList :=
  let d1 :=
    if !truthy (getV data "name")
        && (truthy (getV data "fullName") || truthy (getV data "full_name")
            || truthy (getV data "Name")) then
      aset data "name"
        (orV (getV data "fullName")
          (orV (getV data "full_name") (orV (getV data "Name") (vStr ""))))
    else data
  if !truthy (getV d1 "name")
      && (truthy (getV d1 "firstName") || truthy (getV d1 "lastName")
          || truthy (getV d1 "first_name") || truthy (getV d1 "last_name")) then
    aset d1 "name"
      (vStr (pyStrip
        (pyStr (orV (getV d1 "firstName") (orV (getV d1 "first_name") (vStr "")))
          ++ " "
          ++ pyStr (orV (getV d1 "lastName") (orV (getV d1 "last_name") (vStr ""))))))
  else d1

/-- `PipelineEngine.run` (engine.py lines 42-151): copy and normalize the
initial data, run the station loop from a fresh context, and attach the
pipeline metadata. -/
def engineRun (route : List StationSpec) (budget : Rat) (initial : AList) : AList :=
  let d := normalizeName initial
  let ctx := runStations ⟨d, 0, budget, [], []⟩ route
  addMeta ctx.data ctx.total_cost ctx.history.length ctx.errors.length

/-! ## Telnyx gatekeep (enrichment/telnyx_gatekeep.py) and the phone stations
(pipeline/stations/enrichment.py). -/

/-- The validation dict returned by `validate_phone_telnyx`. -/
structure TelnyxValidation where
  is_valid : Bool
  is_mobile : Bool
  is_voip : Bool
  is_landline : Bool
  carrier : Option String
  is_junk : Bool
deriving DecidableEq

/-- Known junk/VOIP carriers (telnyx_gatekeep.py JUNK_CARRIERS). -/
def JUNK_CARRIERS : List String :=
  ["Google Voice", "TextNow", "Burner", "Twilio", "Bandwidth", "Vonage",
   "RingCentral", "8x8", "Nextiva", "Ooma", "MagicJack", "Grasshopper"]

/-- Python `needle in hay` substring test on character lists. -/
def isSubChars (needle : List Char) : List Char → Bool
  | [] => needle.isEmpty
  | c :: rest => needle.isPrefixOf (c :: rest) || isSubChars needle rest

/-- `is_junk_carrier` (telnyx_gatekeep.py lines 121-131): case-insensitive
substring match against the junk-carrier list; empty names are not junk. -/
def is_junk_carrier (carrierName : String) : Bool :=
  if carrierName == "" then false
  else JUNK_CARRIERS.any fun junk =>
    isSubChars junk.toLower.toList carrierName.toLower.toList

/-- Observable outcome of the Telnyx lookup HTTP request. -/
inductive TelnyxApiOutcome where
  | ok (valid : Bool) (carrierName : String) (carrierType : String)
  | requestError
  | otherError

/-- The permissive all-clear result returned when the API key is not set or
the API request fails (telnyx_gatekeep.py lines 41-48 and 102-109). -/
def permissiveValidation : TelnyxValidation :=
  ⟨true, true, false, false, none, false⟩

/-- The all-false result for a malformed number or an unexpected exception
(telnyx_gatekeep.py lines 57-64 and 112-119). -/
def invalidValidation : TelnyxValidation :=
  ⟨false, false, false, false, none, false⟩

/-- Phone cleaning (telnyx_gatekeep.py lines 52-54): keep digits, strip a
leading US country code from an 11-digit number. -/
def cleanPhone (phone : String) : List Char :=
  let ds := phone.toList.filter Char.isDigit
  if ds.head? = some '1' && ds.length == 11 then ds.tail else ds

/-- `validate_phone_telnyx` (telnyx_gatekeep.py lines 28-119), with the API
key and the HTTP outcome passed explicitly. An unset or empty key yields the
permissive result; a number that does not clean to 10 digits is invalid; a
request error is permissive (fail open); any other exception is invalid. -/
def validate_phone_telnyx (apiKey : Option String) (phone : String)
    (api : TelnyxApiOutcome) : TelnyxValidation :=
  if !(match apiKey with | some k => !(k == "") | none => false) then
    permissiveValidation
  else
    let ds := cleanPhone phone
    if !(ds.length == 10) then invalidValidation
    else
      match api with
      | .ok valid cname ctype =>
        { is_valid := valid
          is_mobile := ctype == "mobile"
          is_voip := ctype == "voip"
          is_landline := ctype == "landline"
          carrier := some cname
          is_junk := is_junk_carrier cname }
      | .requestError => permissiveValidation
      | .otherError => invalidValidation

/-- `should_reject_lead` (telnyx_gatekeep.py lines 133-159): reject when
invalid, VOIP or landline, junk carrier, or not mobile. -/
def should_reject_lead (v : TelnyxValidation) : Bool :=
  !v.is_valid || (v.is_voip || v.is_landline) || v.is_junk || !v.is_mobile

/-- The validation dict as merged into the context by the gatekeep station. -/
def validationToData (v : TelnyxValidation) : AList :=
  [("is_valid", vBool v.is_valid), ("is_mobile", vBool v.is_mobile),
   ("is_voip", vBool v.is_voip), ("is_landline", vBool v.is_landline),
   ("carrier", match v.carrier with | some c => vStr c | none => vNone),
   ("is_junk", vBool v.is_junk)]

/-- `TelnyxGatekeepStation.process` (stations/enrichment.py lines 171-199),
with the outcome of the `validate_phone_telnyx` call passed explicitly
(`.error` models an exception escaping the call). Rejects — SKIP_REMAINING —
exactly when junk, VOIP, or landline-and-not-mobile; fails open (CONTINUE)
on an exception. -/
def telnyxGatekeepProcess (data : AList)
    (call : Except String TelnyxValidation) : AList × StopCondition :=
  if !truthy (getV data "phone") then ([], FAIL)
  else
    match call with
    | .ok v =>
      if v.is_junk || v.is_voip || (v.is_landline && !v.is_mobile) then
        (validationToData v, SKIP_REMAINING)
      else
        (validationToData v, CONTINUE)
    | .error _ => ([], CONTINUE)

/-- The fail-open dict of the DNC station's exception handler
(stations/enrichment.py line 248). -/
def dncFailOpenData : AList :=
  [("dnc_status", vStr "UNKNOWN"), ("can_contact", vBool true)]

/-- `DNCGatekeeperStation.process` (stations/enrichment.py lines 225-248),
with the outcome of the `scrub_dnc` call passed explicitly as the returned
dict or an exception. SKIP_REMAINING when `can_contact` (default True) is
falsy; fail open with can_contact=True on an exception. -/
def dncGatekeeperProcess (data : AList) (call : Except String AList) :
    AList × StopCondition :=
  if !truthy (getV data "phone") then ([], FAIL)
  else
    match call with
    | .ok d =>
      if !truthy (getVD d "can_contact" (vBool true)) then (d, SKIP_REMAINING)
      else (d, CONTINUE)
    | .error _ => (dncFailOpenData, CONTINUE)

/-! ## Hive Mind recall (chimera_brain/hive_mind.py). -/

/-- `HiveMind.recall_experience` (hive_mind.py lines 115-163) as a function of
the KNN-1 search outcome: `none` when the index returned no document (or the
query raised), otherwise the nearest document's cosine distance and its
stored action plan. The stored plan is returned iff the distance is < 0.1. -/
def recall_experience (knn : Option (Rat × String)) : Option String :=
  match knn with
  | none => none
  | some (score, plan) => if score < mkRat 1 10 then some plan else none

/-! ## Honeypot and visibility guard (chimera-core/visibility_check.py). -/

/-- A DOM bounding box / forbidden rect. -/
structure BBox where
  x : Rat
  y : Rat
  width : Rat
  height : Rat
deriving DecidableEq

/-- The vision service response fields read by the guard. -/
structure VisionCoords where
  found : Bool
  vx : Option Rat
  vy : Option Rat
deriving DecidableEq

/-- Outcome of `worker.process_vision`: the brain unreachable (`None` return),
an exception inside the screenshot/vision block, or a response. -/
inductive VisionCall where
  | unreachable
  | raised
  | resp (c : VisionCoords)
deriving DecidableEq

/-- Environment of one guarded selector click: page presence, the Dojo
forbidden selectors/rects for the domain, the DOM resolution of the
selector (`none` = not in the DOM; `some obox` = element with optional
bounding box), and the vision call outcome. -/
structure GuardEnv where
  pagePresent : Bool
  forbiddenSelectors : List String
  forbiddenRects : List BBox
  elemInDom : Option (Option BBox)
  vision : VisionCall

/-- `is_in_forbidden_region` (visibility_check.py lines 69-79). -/
def inForbiddenRect (rects : List BBox) (x y : Rat) : Bool :=
  rects.any fun r =>
    decide (r.x ≤ x) && decide (x ≤ r.x + r.width)
      && decide (r.y ≤ y) && decide (y ≤ r.y + r.height)

/-- `is_selector_forbidden` (visibility_check.py lines 82-89). -/
def isSelectorForbidden (forbidden : List String) (selector : String) : Bool :=
  forbidden.any fun s => pyStrip s == pyStrip selector

/-- `check_before_selector_click` (visibility_check.py lines 97-190).
Returns (ok, honeypot). Forbidden selector, missing bounding box, a vision
response without found coordinates, a spatial mismatch over 120 px, and a
forbidden rect all block; a `None` vision return fails open. -/
def check_before_selector_click (selector : String) (env : GuardEnv) :
    Bool × Bool :=
  if !env.pagePresent then (false, false)
  else if isSelectorForbidden env.forbiddenSelectors selector then (false, true)
  else
    match env.elemInDom with
    | none => (false, false)
    | some obox =>
      match obox with
      | none => (false, true)
      | some box =>
        match env.vision with
        | .unreachable => (true, false)
        | .raised => (false, true)
        | .resp c =>
          match c.vx, c.vy with
          | some xv, some yv =>
            if !c.found then (false, true)
            else
              let cx := box.x + box.width / 2
              let cy := box.y + box.height / 2
              if |xv - cx| + |yv - cy| > 120 then (false, true)
              else if inForbiddenRect env.forbiddenRects xv yv then (false, true)
              else (true, false)
          | _, _ => (false, true)

/-! ## Reconciler (enrichment/reconciler.py). -/

/-- The reserved golden-record fields (reconciler.py `_FIELDS`). -/
def FIELDS : List String :=
  ["phone", "age", "income", "email", "address", "city", "state", "zipcode"]

/-- `_non_null` (reconciler.py lines 31-36): None and whitespace-only strings
are null; everything else (including 0 and False) is non-null. -/
def nonNullV : Val → Bool
  | vNone => false
  | vStr s => !(pyStrip s == "")
  | _ => true

/-- `rec.get("provider", "")` — the provider tag of a per-site record. -/
def providerOf (rec : AList) : Val := getVD rec "provider" (vStr "")

/-- `weights.get(p, dflt)` on a provider-weight table keyed by values. -/
def wlookup (weights : List (Val × Rat)) (p : Val) (dflt : Rat) : Rat :=
  match weights.find? (fun kv => kv.1 == p) with
  | some kv => kv.2
  | none => dflt

/-- The weight table `reconcile_results` actually uses (lines 49-51): the GPS
table when non-empty, otherwise every listed provider at 0.5. -/
def effWeights (records : List AList) (gps : List (Val × Rat)) :
    List (Val × Rat) :=
  if gps.isEmpty then records.map (fun d => (providerOf d, mkRat 1 2)) else gps

/-- One step of the per-field pick (reconciler.py lines 57-65): take the
record's value when it is non-null and its provider weight (default 0.5)
strictly beats the best so far. -/
def pickStep (weights : List (Val × Rat)) (field : String)
    (acc : Rat × Option Val) (rec : AList) : Rat × Option Val :=
  match aget rec field with
  | some v =>
    if nonNullV v then
      let w := wlookup weights (providerOf rec) (mkRat 1 2)
      if acc.1 < w then (w, some v) else acc
    else acc
  | none => acc

/-- The per-field pick (reconciler.py lines 55-65): fold with a
`(best_w, best_val)` accumulator starting at (-1, None). -/
def pickFieldFold (weights : List (Val × Rat)) (field : String)
    (records : List AList) : Rat × Option Val :=
  records.foldl (pickStep weights field) (-1, none)

/-- One item of the extras pass (reconciler.py lines 74-78): carry a
non-reserved, non-null item unless already chosen. -/
def extrasStep (out : AList) (kv : String × Val) : AList :=
  if FIELDS.contains kv.1 || kv.1 == "provider" then out
  else if nonNullV kv.2 && (aget out kv.1).isNone then aset out kv.1 kv.2
  else out

/-- The extras pass over one record's items. -/
def extrasRecFold (out : AList) (rec : AList) : AList :=
  rec.foldl extrasStep out

/-- One record of the extras pass (reconciler.py lines 70-73): providers
whose weight — looked up with default 0 — is below 0.5 are skipped. -/
def extrasProviderStep (weights : List (Val × Rat)) (out : AList)
    (rec : AList) : AList :=
  if wlookup weights (providerOf rec) 0 < mkRat 1 2 then out
  else extrasRecFold out rec

/-- One field of the pick phase (reconciler.py lines 54-67): store the best
value when one exists. -/
def fieldStep (weights : List (Val × Rat)) (records : List AList)
    (out : AList) (field : String) : AList :=
  match (pickFieldFold weights field records).2 with
  | some v => aset out field v
  | none => out

/-- `reconcile_results` (reconciler.py lines 39-80): per-field best-weight
pick, then the extras pass. -/
def reconcile_results (records : List AList) (gps : List (Val × Rat)) : AList :=
  records.foldl (extrasProviderStep (effWeights records gps))
    (FIELDS.foldl (fieldStep (effWeights records gps) records) [])

/-- A record's candidate (weight, value) pair for one field, as the spec
describes it: a provider offering a non-null value, weighted by success rate
with default 0.5. -/
def candEntry (weights : List (Val × Rat)) (field : String) (rec : AList) :
    Option (Rat × Val) :=
  match aget rec field with
  | some v =>
    if nonNullV v then some (wlookup weights (providerOf rec) (mkRat 1 2), v)
    else none
  | none => none

/-- Candidate (weight, value) pairs for one field, in record order. -/
def candList (records : List AList) (weights : List (Val × Rat))
    (field : String) : List (Rat × Val) :=
  records.filterMap (candEntry weights field)

/-- Spec-side per-field choice, following the spec's words: the value from
the provider with the highest weight, ties won by the provider listed
first. -/
def argmaxFirst : List (Rat × Val) → Option (Rat × Val)
  | [] => none
  | p :: rest =>
    match argmaxFirst rest with
    | none => some p
    | some q => if p.1 < q.1 then some q else some p

/-- Left-biased choice on optional values (`a` if present, else `b`). -/
def oOr (a b : Option Val) : Option Val :=
  match a with
  | some v => some v
  | none => b

/-- The non-null value a record offers for a key, if any. -/
def firstNonNull (rec : AList) (k : String) : Option Val :=
  match aget rec k with
  | some v => if nonNullV v then some v else none
  | none => none

/-- Spec-side extras choice for a non-reserved key: the first non-null value
among the records whose provider weight (default 0) is at least 0.5. -/
def extrasSpec (records : List AList) (weights : List (Val × Rat))
    (k : String) : Option Val :=
  (records.filterMap fun rec =>
    if mkRat 1 2 ≤ wlookup weights (providerOf rec) 0 then firstNonNull rec k
    else none).head?

/-- One strict-improvement step of the best-so-far fold. -/
def bestStep (acc : Rat × Option Val) (p : Rat × Val) : Rat × Option Val :=
  if acc.1 < p.1 then (p.1, some p.2) else acc

/-- The bare best-so-far fold underlying `pickFieldFold`, over the candidate
(weight, value) list. -/
def foldBest (l : List (Rat × Val)) : Rat × Option Val :=
  l.foldl bestStep (-1, none)

/-! ## Database persistence (enrichment/database.py). -/

/-- One row of the `leads` table. A `Val` of `vNone` is SQL NULL;
`linkedin_url` carries the NOT NULL / UNIQUE key. -/
structure LeadRow where
  linkedin_url : Val
  name : Val
  phone : Val
  email : Val
  city : Val
  state : Val
  zipcode : Val
  age : Val
  income : Val
  dnc_status : Val
  can_contact : Val
  enriched_at : Nat
  created_at : Nat
deriving DecidableEq

/-- The values extracted from the enriched lead (database.py lines 36-46). -/
structure NewLead where
  url : Val
  name : Val
  phone : Val
  email : Val
  city : Val
  state : Val
  zipcode : Val
  age : Val
  income : Val
  dnc : Val
  cc : Val
deriving DecidableEq

/-- `linkedin_url` extraction: `lead.get('linkedinUrl') or lead.get('linkedin_url')`. -/
def leadUrl (lead : AList) : Val :=
  orV (getV lead "linkedinUrl") (getV lead "linkedin_url")

/-- Value extraction from the enriched lead (database.py lines 36-46). -/
def extractLead (lead : AList) : NewLead :=
  { url := leadUrl lead
    name := orV (getV lead "name")
      (vStr (pyStrip (pyStr (getVD lead "firstName" (vStr "")) ++ " "
        ++ pyStr (getVD lead "lastName" (vStr "")))))
    phone := getV lead "phone"
    email := getV lead "email"
    city := getV lead "city"
    state := getV lead "state"
    zipcode := getV lead "zipcode"
    age := getV lead "age"
    income := orV (getV lead "income") (getV lead "median_income")
    dnc := orV (getV lead "dnc_status") (getVD lead "status" (vStr "UNKNOWN"))
    cc := getVD lead "can_contact" (vBool false) }

/-- SQL `COALESCE(a, b)`. -/
def coalesce (a b : Val) : Val := if a = vNone then b else a

/-- The freshly inserted row (no conflicting row exists, so the `created_at`
subquery falls back to NOW()). -/
def insertRow (e : NewLead) (now : Nat) : LeadRow :=
  ⟨e.url, e.name, e.phone, e.email, e.city, e.state, e.zipcode, e.age,
   e.income, e.dnc, e.cc, now, now⟩

/-- The ON CONFLICT update (database.py lines 57-67): COALESCE each listed
field with the existing row; `name` and `created_at` are not in the SET
list; `enriched_at` becomes NOW(). -/
def updateRow (e : NewLead) (old : LeadRow) (now : Nat) : LeadRow :=
  { old with
    phone := coalesce e.phone old.phone
    email := coalesce e.email old.email
    age := coalesce e.age old.age
    income := coalesce e.income old.income
    dnc_status := coalesce e.dnc old.dnc_status
    can_contact := coalesce e.cc old.can_contact
    city := coalesce e.city old.city
    state := coalesce e.state old.state
    zipcode := coalesce e.zipcode old.zipcode
    enriched_at := now }

/-- Replace the (unique) row keyed by `u`. -/
def replaceWhere : List LeadRow → Val → LeadRow → List LeadRow
  | [], _, _ => []
  | r :: rest, u, nr =>
    if r.linkedin_url = u then nr :: rest else r :: replaceWhere rest u nr

/-- `save_to_database` (database.py lines 13-92) against an explicit table
state: a NULL key makes the INSERT violate NOT NULL, which the
IntegrityError handler swallows as success with no row written; otherwise
insert-or-update keyed on `linkedin_url`. Returns the new table and the
boolean result. -/
def save_to_database (lead : AList) (now : Nat) (db : List LeadRow) :
    List LeadRow × Bool :=
  if (extractLead lead).url = vNone then (db, true)
  else
    match db.find? (fun r => r.linkedin_url == (extractLead lead).url) with
    | some old =>
      (replaceWhere db (extractLead lead).url (updateRow (extractLead lead) old now),
        true)
    | none => (db ++ [insertRow (extractLead lead) now], true)

/-- Number of rows stored under a given key. -/
def countUrl (db : List LeadRow) (u : Val) : Nat :=
  (db.filter fun r => r.linkedin_url == u).length

/-- No field that is non-null in `old` is null in `r`, and the fields outside
the update list are untouched. -/
def nonNullPreserved (old r : LeadRow) : Prop :=
  (old.phone ≠ vNone → r.phone ≠ vNone)
  ∧ (old.email ≠ vNone → r.email ≠ vNone)
  ∧ (old.city ≠ vNone → r.city ≠ vNone)
  ∧ (old.state ≠ vNone → r.state ≠ vNone)
  ∧ (old.zipcode ≠ vNone → r.zipcode ≠ vNone)
  ∧ (old.age ≠ vNone → r.age ≠ vNone)
  ∧ (old.income ≠ vNone → r.income ≠ vNone)
  ∧ (old.dnc_status ≠ vNone → r.dnc_status ≠ vNone)
  ∧ (old.can_contact ≠ vNone → r.can_contact ≠ vNone)
  ∧ r.name = old.name ∧ r.created_at = old.created_at

instance (old r : LeadRow) : Decidable (nonNullPreserved old r) := by
  unfold nonNullPreserved; infer_instance

/-! ## GPS Provider Router (pipeline/router.py). -/

/-- The ordered provider magazine (router.py MAGAZINE). -/
def MAGAZINE : List String :=
  ["FastPeopleSearch", "TruePeopleSearch", "ZabaSearch", "SearchPeopleFree",
   "ThatsThem", "AnyWho"]

/-- Per-provider counters (the Redis hash `gps:provider:<name>`). -/
structure ProviderStats where
  success : Nat
  failure : Nat
  captcha : Nat
  latency : Nat
deriving DecidableEq

/-- The derived score of `_get_provider_stats` (router.py lines 82-97):
0 when no operations, else reward per op minus a latency penalty. -/
def providerScore (st : ProviderStats) : Rat :=
  let n := st.success + st.failure
  if n = 0 then 0
  else ((st.success : Rat) * 1 + (st.captcha : Rat) * (-(1 : Rat)/2)
      + (st.failure : Rat) * (-5)) / (n : Rat)
    - ((st.latency : Rat) / (n : Rat)) / 8000

/-- `_get_state_boost` (router.py lines 100-110) from the state-conditional
success/failure counters. -/
def stateBoost (s f : Nat) : Rat :=
  if s + f < 3 then 0 else (15 : Rat)/100 * ((s : Rat) / ((s : Rat) + (f : Rat)))

/-- The candidate list (router.py line 137): the magazine minus the tried set
minus blacklisted providers, in magazine order. -/
def selectCandidates (blacklisted : String → Bool) (tried : List String) :
    List String :=
  MAGAZINE.filter fun p => !tried.contains p && !blacklisted p

/-- The exploitation argmax (router.py lines 151-160): fold with
`(best, best_score)` starting at (None, -1e9), strict improvement. -/
def argmaxProvider (score : String → Rat) (cands : List String) :
    Option String :=
  (cands.foldl
    (fun acc name => if score name > acc.2 then (some name, score name) else acc)
    ((none : Option String), -(1000000000 : Rat))).1

/-- The explore/exploit tail of `select_provider` (router.py lines 145-160),
with the ε draw and the uniform choice determinized as arguments; the final
`best or candidates[0]` falls back to the first candidate when the fold
produced nothing or an empty name. -/
def exploreExploit (cands : List String) (c0 : String) (explDraw epsilon : Rat)
    (explIdx : Nat) (score : String → Rat) : String :=
  if explDraw < epsilon then cands.getD (explIdx % cands.length) ""
  else
    match argmaxProvider score cands with
    | some b => if b == "" then c0 else b
    | none => c0

/-- `select_provider` (router.py lines 121-160) with the blacklist, the
Redis-backed statistics (as functions of the provider name) and the random
draws passed explicitly. Empty candidate list → the first magazine entry;
truthy preferred in candidates with the 0.8 draw → preferred; else ε-greedy
explore/exploit on score plus state boost. -/
def select_provider (blacklisted : String → Bool) (tried : List String)
    (preferred : Option String) (prefDraw explDraw epsilon : Rat)
    (explIdx : Nat) (stats : String → ProviderStats)
    (sstate : String → Nat × Nat) : String :=
  let score := fun name =>
    providerScore (stats name) + stateBoost (sstate name).1 (sstate name).2
  match selectCandidates blacklisted tried with
  | [] => MAGAZINE.headD ""
  | c0 :: rest =>
    let cands := c0 :: rest
    match preferred with
    | some p =>
      if !(p == "") && cands.contains p && prefDraw < mkRat 4 5 then p
      else exploreExploit cands c0 explDraw epsilon explIdx score
    | none => exploreExploit cands c0 explDraw epsilon explIdx score

/-- `get_next_provider` (router.py lines 163-175): first magazine entry not
tried (including the failed provider) and not blacklisted. -/
def get_next_provider (blacklisted : String → Bool) (failed : String)
    (tried : List String) : Option String :=
  (MAGAZINE.filter fun p =>
    !(tried.contains p || p == failed) && !blacklisted p).head?

/-! ## Theorems. -/

/-- C1: The Phone Gatekeep station is claimed to return SKIP_REMAINING exactly
when the phone is invalid, VOIP, landline, or junk — in particular an invalid
phone should terminate the pipeline. The code only rejects junk, VOIP, and
non-mobile landlines: a phone that cleans to the wrong number of digits
yields the all-false invalid validation, on which the station returns
CONTINUE, even though the module's own `should_reject_lead` rejects it. -/
theorem telnyx_gatekeep_invalid_phone_passes :
    validate_phone_telnyx (some "TELNYX-KEY") "555-1234"
        (.ok true "Verizon" "mobile") = invalidValidation
    ∧ invalidValidation.is_valid = false
    ∧ telnyxGatekeepProcess [("phone", Val.vStr "555-1234")]
        (.ok invalidValidation)
      = (validationToData invalidValidation, StopCondition.CONTINUE)
    ∧ should_reject_lead invalidValidation = true := by
  refine ⟨by decide, rfl, by decide, rfl⟩

/-- C4: The Hive Mind recall is claimed to return the nearest neighbour's
action plan exactly when its cosine distance is strictly below 0.02. The code
returns the plan for any distance below 0.1: at distance 0.05 — not below
0.02 — the stored plan is still returned, contradicting the method's own
"similarity > 98%" docstring. -/
theorem hive_recall_threshold_bug :
    recall_experience (some (1/20, "cached-plan")) = some "cached-plan"
    ∧ ¬((1 : Rat)/20 < 2/100) := by
  constructor
  · simp [recall_experience]
    norm_num
  · norm_num

/-- C7: For a selector whose element resolved with a bounding box, a vision
response of found=false with no coordinates blocks the click as a honeypot
(fail-closed), while a `None` return from an unreachable vision service
permits the click (fail-open). -/
theorem guard_fail_closed_fail_open (selector : String) (env : GuardEnv)
    (box : BBox)
    (hp : env.pagePresent = true)
    (hs : isSelectorForbidden env.forbiddenSelectors selector = false)
    (he : env.elemInDom = some (some box)) :
    (env.vision = .unreachable →
      check_before_selector_click selector env = (true, false))
    ∧ (env.vision = .resp ⟨false, none, none⟩ →
      check_before_selector_click selector env = (false, true)) := by
  constructor <;> intro hv <;>
    simp [check_before_selector_click, hp, hs, he, hv]

/-- Witness for C7 at concrete environments: vision unreachable permits,
found=false with no coordinates blocks. -/
theorem guard_fail_closed_fail_open_witness :
    check_before_selector_click "#next"
        ⟨true, [], [], some (some ⟨0, 0, 10, 10⟩), .unreachable⟩ = (true, false)
    ∧ check_before_selector_click "#next"
        ⟨true, [], [], some (some ⟨0, 0, 10, 10⟩), .resp ⟨false, none, none⟩⟩
      = (false, true) :=
  ⟨(guard_fail_closed_fail_open "#next"
      ⟨true, [], [], some (some ⟨0, 0, 10, 10⟩), .unreachable⟩
      ⟨0, 0, 10, 10⟩ rfl (by decide) rfl).1 rfl,
   (guard_fail_closed_fail_open "#next"
      ⟨true, [], [], some (some ⟨0, 0, 10, 10⟩), .resp ⟨false, none, none⟩⟩
      ⟨0, 0, 10, 10⟩ rfl (by decide) rfl).2 rfl⟩

/-- C9: Both phone gates fail open. For a present (truthy) phone, an
exception from the underlying call makes the Telnyx station return CONTINUE
with no data, and the DNC station return CONTINUE with dnc_status=UNKNOWN and
can_contact=True; and `validate_phone_telnyx` returns the permissive
all-clear result whenever the API key is absent or the API request fails on a
well-formed number. -/
theorem stations_fail_open :
    (∀ (data : AList) (m : String), truthy (getV data "phone") = true →
      telnyxGatekeepProcess data (.error m) = ([], StopCondition.CONTINUE))
    ∧ (∀ (data : AList) (m : String), truthy (getV data "phone") = true →
      dncGatekeeperProcess data (.error m)
        = (dncFailOpenData, StopCondition.CONTINUE))
    ∧ (∀ (phone : String) (api : TelnyxApiOutcome),
      validate_phone_telnyx none phone api = permissiveValidation)
    ∧ (∀ (key phone : String), key ≠ "" → (cleanPhone phone).length = 10 →
      validate_phone_telnyx (some key) phone .requestError
        = permissiveValidation) := by
  refine ⟨?_, ?_, ?_, ?_⟩
  · intro data m h
    simp [telnyxGatekeepProcess, h]
  · intro data m h
    simp [dncGatekeeperProcess, h]
  · intro phone api
    simp [validate_phone_telnyx]
  · intro key phone hk hlen
    simp [validate_phone_telnyx, hk, hlen]

/-- Witness for C9 at concrete inputs: a present phone with a raising call,
an absent API key, and a request error on a ten-digit number. -/
theorem stations_fail_open_witness :
    telnyxGatekeepProcess [("phone", Val.vStr "3055550100")] (.error "boom")
      = ([], StopCondition.CONTINUE)
    ∧ dncGatekeeperProcess [("phone", Val.vStr "3055550100")] (.error "down")
      = (dncFailOpenData, StopCondition.CONTINUE)
    ∧ validate_phone_telnyx none "3055550100" .otherError = permissiveValidation
    ∧ validate_phone_telnyx (some "KEY") "+1 (305) 555-0100" .requestError
      = permissiveValidation :=
  ⟨stations_fail_open.1 [("phone", Val.vStr "3055550100")] "boom" (by decide),
   stations_fail_open.2.1 [("phone", Val.vStr "3055550100")] "down" (by decide),
   stations_fail_open.2.2.1 "3055550100" .otherError,
   stations_fail_open.2.2.2 "KEY" "+1 (305) 555-0100" (by decide) (by decide)⟩

/-- C2 counterexample: a station whose checks pass and whose body raises an
unstructured exception. The claim says its cost estimate (here 0.15) is still
committed; the engine's exception handlers never call `ctx.update`, so the
final pipeline cost is 0, not 0.15. -/
theorem engine_cost_on_exception_cex :
    aget (engineRun
        [⟨"Skip-Tracing API", [], 3/20, fun _ => .throwUnstructured "api down"⟩]
        5 [])
      "_pipeline_cost" = some (Val.vRat 0)
    ∧ (0 : Rat) ≠ 3/20 := by
  constructor
  · have hca : canAfford ⟨[], 0, 5, [], []⟩ (3/20) = true := by
      unfold canAfford
      norm_num
    simp [engineRun, normalizeName, getV, aget, truthy, runStations, engineStep,
      stationExecute, hca, availableFields, addMeta, aset]
  · norm_num

/-- C2 amended: the engine commits a station's cost estimate only when the
station returns a (data, condition) pair; when the invoked station raises (a
structured enrichment error or any other exception), the engine appends the
message to the error list and the running cost total is unchanged. -/
theorem engine_no_cost_on_exception (ctx : PipelineContext) (s : StationSpec)
    (m : String) (h : stationExecute s ctx = .error m) :
    engineStep ctx s = ({ ctx with errors := ctx.errors ++ [m] }, false)
    ∧ (engineStep ctx s).1.total_cost = ctx.total_cost := by
  have h1 : engineStep ctx s = ({ ctx with errors := ctx.errors ++ [m] }, false) := by
    unfold engineStep
    rw [h]
  exact ⟨h1, by rw [h1]⟩

/-- Witness for C2 amended: a raising station leaves the cost total at 0. -/
theorem engine_no_cost_on_exception_witness :
    engineStep ⟨[], 0, 5, [], []⟩
        ⟨"Skip-Tracing API", [], 3/20, fun _ => .throwUnstructured "api down"⟩
      = (⟨[], 0, 5, [], ["api down"]⟩, false) :=
  (engine_no_cost_on_exception ⟨[], 0, 5, [], []⟩
    ⟨"Skip-Tracing API", [], 3/20, fun _ => .throwUnstructured "api down"⟩
    "api down"
    (by norm_num [stationExecute, canAfford, availableFields])).1

/-- C10: When a station's prerequisite check fails (some required input is
not among the available fields), `execute` returns FAIL before the budget
check and without invoking the station body, and the engine still commits
the full cost estimate to the running cost total via `ctx.update` and
continues the loop. -/
theorem prereq_fail_commits_cost (ctx : PipelineContext) (s : StationSpec)
    (h : (s.required_inputs.all fun f => (availableFields ctx).contains f)
      = false) :
    engineStep ctx s = (ctxUpdate ctx [] s.name s.cost_estimate .FAIL, false)
    ∧ (engineStep ctx s).1.total_cost = ctx.total_cost + s.cost_estimate := by
  have h1 : engineStep ctx s
      = (ctxUpdate ctx [] s.name s.cost_estimate .FAIL, false) := by
    unfold engineStep stationExecute
    rw [h]
    rfl
  refine ⟨h1, by rw [h1]; rfl⟩

/-- Witness for C10: a DNC station missing its `phone` input, with a budget
that could not afford it, still debits its 0.02 estimate. -/
theorem prereq_fail_commits_cost_witness :
    engineStep ⟨[], 0, 0, [], []⟩
        ⟨"DNC Scrubbing", ["phone"], 1/50, fun _ => .ret [] .CONTINUE⟩
      = (ctxUpdate ⟨[], 0, 0, [], []⟩ [] "DNC Scrubbing" (1/50) .FAIL, false)
    ∧ (0 : Rat) + 1/50 = 1/50 :=
  ⟨(prereq_fail_commits_cost ⟨[], 0, 0, [], []⟩
      ⟨"DNC Scrubbing", ["phone"], 1/50, fun _ => .ret [] .CONTINUE⟩
      (by decide)).1,
   by norm_num⟩

/-- C8 counterexample: with an empty station list the engine still performs
name normalization before the loop, so a lead carrying only `fullName` gains
a new `name` field in the final record, beyond the metadata keys. -/
theorem engine_empty_route_cex :
    aget (engineRun [] 5 [("fullName", Val.vStr "John Doe")]) "name"
      = some (Val.vStr "John Doe")
    ∧ aget [("fullName", Val.vStr "John Doe")] "name" = none := by
  exact ⟨rfl, rfl⟩

/-- C8 amended: with an empty station list the engine returns the initial
lead after canonical-name normalization, with exactly the pipeline metadata
appended (cost 0, stations executed 0, error count 0); when the lead already
has a truthy `name`, normalization is the identity and nothing but the
metadata is added or changed. -/
theorem engine_empty_route_meta (budget : Rat) (initial : AList) :
    engineRun [] budget initial = addMeta (normalizeName initial) 0 0 0
    ∧ (truthy (getV initial "name") = true →
      engineRun [] budget initial = addMeta initial 0 0 0) := by
  constructor
  · rfl
  · intro h
    show addMeta (normalizeName initial) 0 0 0 = addMeta initial 0 0 0
    have hn : normalizeName initial = initial := by
      unfold normalizeName
      simp [h]
    rw [hn]

/-- Witness for C8 amended: a lead that already has a name is returned
unchanged apart from the three metadata keys. -/
theorem engine_empty_route_meta_witness :
    engineRun [] 1 [("name", Val.vStr "Jane Roe")]
      = addMeta [("name", Val.vStr "Jane Roe")] 0 0 0 :=
  (engine_empty_route_meta 1 [("name", Val.vStr "Jane Roe")]).2 (by decide)

/-- The exploitation fold keeps its accumulator or ends on some scanned name. -/
theorem argmaxFold_acc_or_mem (score : String → Rat) (l : List String)
    (acc : Option String × Rat) :
    (l.foldl
        (fun acc name => if score name > acc.2 then (some name, score name) else acc)
        acc).1 = acc.1
    ∨ ∃ x ∈ l,
      (l.foldl
        (fun acc name => if score name > acc.2 then (some name, score name) else acc)
        acc).1 = some x := by
  induction l generalizing acc with
  | nil => exact Or.inl rfl
  | cons a l ih =>
    rw [List.foldl_cons]
    rcases ih (if score a > acc.2 then (some a, score a) else acc) with h | ⟨x, hx, he⟩
    · by_cases hc : score a > acc.2
      · exact Or.inr ⟨a, List.mem_cons_self a l, by rw [h]; simp [hc]⟩
      · exact Or.inl (by rw [h]; simp [hc])
    · exact Or.inr ⟨x, List.mem_cons_of_mem a hx, he⟩

/-- A successful exploitation argmax names a candidate. -/
theorem argmaxProvider_mem (score : String → Rat) (cands : List String)
    (b : String) (h : argmaxProvider score cands = some b) : b ∈ cands := by
  unfold argmaxProvider at h
  rcases argmaxFold_acc_or_mem score cands ((none : Option String), -(1000000000 : Rat))
    with h0 | ⟨x, hx, he⟩
  · rw [h] at h0
    exact absurd h0 (by simp)
  · rw [h] at he
    obtain rfl : b = x := by injection he
    exact hx

/-- The uniform exploration choice names a candidate. -/
theorem getD_mod_mem (l : List String) (i : Nat) (h : l ≠ []) :
    l.getD (i % l.length) "" ∈ l := by
  have hlen : i % l.length < l.length := Nat.mod_lt _ (List.length_pos.mpr h)
  rw [List.getD_eq_getElem l "" hlen]
  exact List.getElem_mem hlen

/-- The explore/exploit tail returns a candidate when the fallback head is
one. -/
theorem exploreExploit_mem (cands : List String) (c0 : String)
    (explDraw epsilon : Rat) (explIdx : Nat) (score : String → Rat)
    (hne : cands ≠ []) (hc0 : c0 ∈ cands) :
    exploreExploit cands c0 explDraw epsilon explIdx score ∈ cands := by
  unfold exploreExploit
  by_cases hd : explDraw < epsilon
  · simp only [hd, if_true]
    exact getD_mod_mem cands explIdx hne
  · simp only [hd, if_false]
    rcases hb : argmaxProvider score cands with _ | b
    · exact hc0
    · by_cases hbe : b = ""
      · simp [hbe, hc0]
      · simp only [hbe, if_neg]
        have := argmaxProvider_mem score cands b hb
        simpa [hbe] using this

/-- C6: The Router's candidate set is `selectCandidates` — the magazine minus
the tried set minus blacklisted providers, in magazine order — and whenever
it is empty the Router deterministically returns the first magazine entry,
"FastPeopleSearch"; whenever it is non-empty the selection (preferred
shortcut, exploration, or exploitation) returns one of the candidates. -/
theorem select_provider_fallback_first (blacklisted : String → Bool)
    (tried : List String) (preferred : Option String)
    (prefDraw explDraw epsilon : Rat) (explIdx : Nat)
    (stats : String → ProviderStats) (sstate : String → Nat × Nat) :
    (selectCandidates blacklisted tried = [] →
      select_provider blacklisted tried preferred prefDraw explDraw epsilon
        explIdx stats sstate = "FastPeopleSearch")
    ∧ (∀ c0 rest, selectCandidates blacklisted tried = c0 :: rest →
      select_provider blacklisted tried preferred prefDraw explDraw epsilon
        explIdx stats sstate ∈ c0 :: rest) := by
  constructor
  · intro h
    unfold select_provider
    rw [h]
    rfl
  · intro c0 rest h
    unfold select_provider
    rw [h]
    have hne : c0 :: rest ≠ [] := by simp
    have hc0 : c0 ∈ c0 :: rest := List.mem_cons_self c0 rest
    rcases preferred with _ | p
    · exact exploreExploit_mem _ _ _ _ _ _ hne hc0
    · by_cases hp : (!(p == "") && (c0 :: rest).contains p
          && prefDraw < mkRat 4 5) = true
      · simp only [hp, if_true]
        have hmem : (c0 :: rest).contains p = true := by
          rcases Bool.and_eq_true_iff.mp hp with ⟨h1, _⟩
          exact (Bool.and_eq_true_iff.mp h1).2
        exact List.mem_of_elem_eq_true hmem
      · simp only [Bool.not_eq_true] at hp
        simp only [hp]
        exact exploreExploit_mem _ _ _ _ _ _ hne hc0

/-- Witness for C6: with every provider tried the Router falls back to
"FastPeopleSearch"; with nothing tried and a preferred provider taking the
0.8 draw, the selection is a member of the full magazine. -/
theorem select_provider_fallback_first_witness :
    select_provider (fun _ => false) MAGAZINE none 0 0 0 0
        (fun _ => ⟨0, 0, 0, 0⟩) (fun _ => (0, 0)) = "FastPeopleSearch"
    ∧ select_provider (fun _ => false) [] (some "TruePeopleSearch") 0 1 1 3
        (fun _ => ⟨0, 0, 0, 0⟩) (fun _ => (0, 0)) ∈ MAGAZINE :=
  ⟨(select_provider_fallback_first (fun _ => false) MAGAZINE none 0 0 0 0
      (fun _ => ⟨0, 0, 0, 0⟩) (fun _ => (0, 0))).1 (by decide),
   (select_provider_fallback_first (fun _ => false) [] (some "TruePeopleSearch")
      0 1 1 3 (fun _ => ⟨0, 0, 0, 0⟩) (fun _ => (0, 0))).2
     "FastPeopleSearch"
     ["TruePeopleSearch", "ZabaSearch", "SearchPeopleFree", "ThatsThem", "AnyWho"]
     (by decide)⟩

/-- The ON CONFLICT update never replaces a non-null stored field with NULL,
and leaves `name` and `created_at` untouched. -/
theorem updateRow_nonNullPreserved (e : NewLead) (old : LeadRow) (m : Nat) :
    nonNullPreserved old (updateRow e old m) := by
  unfold nonNullPreserved updateRow coalesce
  refine ⟨?_, ?_, ?_, ?_, ?_, ?_, ?_, ?_, ?_, rfl, rfl⟩ <;>
    (intro h; simp only []; split <;> simp_all)

/-- Row counts add over table concatenation. -/
theorem countUrl_append (db l2 : List LeadRow) (u : Val) :
    countUrl (db ++ l2) u = countUrl db u + countUrl l2 u := by
  unfold countUrl
  rw [List.filter_append]
  exact List.length_append _ _

/-- A table with no row found under a key stores zero rows under it. -/
theorem countUrl_eq_zero (db : List LeadRow) (u : Val)
    (h : db.find? (fun r => r.linkedin_url == u) = none) : countUrl db u = 0 := by
  unfold countUrl
  have hall := List.find?_eq_none.mp h
  rw [List.filter_eq_nil_iff.mpr hall]
  rfl

/-- Replacing under a key not present in the prefix rewrites only the suffix
row that carries it. -/
theorem replaceWhere_append (db : List LeadRow) (u : Val) (r1 nr : LeadRow)
    (hm : ∀ r ∈ db, ¬(r.linkedin_url == u) = true) (hr : r1.linkedin_url = u) :
    replaceWhere (db ++ [r1]) u nr = db ++ [nr] := by
  induction db with
  | nil =>
    simp only [List.nil_append]
    unfold replaceWhere
    rw [if_pos hr]
  | cons r rest ih =>
    have hru : ¬(r.linkedin_url = u) := by
      have := hm r (List.mem_cons_self r rest)
      simpa using this
    simp only [List.cons_append]
    unfold replaceWhere
    rw [if_neg hru, ih (fun x hx => hm x (List.mem_cons_of_mem r hx))]

/-- C5: Persisting the same lead (same `linkedin_url` key) twice into a table
that does not yet hold it yields exactly one row for that key — the insert
followed by the in-place ON CONFLICT update — and on the second save no field
that is non-null in the stored row is overwritten by a null value from the
new lead (COALESCE semantics; `name` and `created_at` are untouched). -/
theorem save_twice_one_row (lead lead2 : AList) (db : List LeadRow) (n1 n2 : Nat)
    (hu : leadUrl lead ≠ Val.vNone)
    (hu2 : leadUrl lead2 = leadUrl lead)
    (hfresh : db.find? (fun r => r.linkedin_url == leadUrl lead) = none) :
    (save_to_database lead2 n2 (save_to_database lead n1 db).1).1
      = db ++ [updateRow (extractLead lead2) (insertRow (extractLead lead) n1) n2]
    ∧ countUrl (save_to_database lead2 n2 (save_to_database lead n1 db).1).1
        (leadUrl lead) = 1
    ∧ nonNullPreserved (insertRow (extractLead lead) n1)
        (updateRow (extractLead lead2) (insertRow (extractLead lead) n1) n2) := by
  have hurl1 : (extractLead lead).url = leadUrl lead := rfl
  have hurl2 : (extractLead lead2).url = leadUrl lead := hu2
  have hr1url : (insertRow (extractLead lead) n1).linkedin_url = leadUrl lead :=
    hurl1
  have h1 : save_to_database lead n1 db
      = (db ++ [insertRow (extractLead lead) n1], true) := by
    unfold save_to_database
    rw [hurl1, if_neg hu, hfresh]
  have hfind2 : (db ++ [insertRow (extractLead lead) n1]).find?
      (fun r => r.linkedin_url == leadUrl lead)
      = some (insertRow (extractLead lead) n1) := by
    rw [List.find?_append, hfresh]
    simp [List.find?, hr1url]
  have hall := List.find?_eq_none.mp hfresh
  have hu2' : leadUrl lead2 ≠ Val.vNone := by
    rw [hu2]
    exact hu
  have h2' : save_to_database lead2 n2 (db ++ [insertRow (extractLead lead) n1])
      = (replaceWhere (db ++ [insertRow (extractLead lead) n1]) (leadUrl lead)
          (updateRow (extractLead lead2) (insertRow (extractLead lead) n1) n2),
        true) := by
    simp only [save_to_database]
    rw [hurl2, if_neg hu, hfind2]
  have h3 : replaceWhere (db ++ [insertRow (extractLead lead) n1]) (leadUrl lead)
      (updateRow (extractLead lead2) (insertRow (extractLead lead) n1) n2)
      = db ++ [updateRow (extractLead lead2) (insertRow (extractLead lead) n1) n2] :=
    replaceWhere_append db (leadUrl lead) _ _
      (fun x hx => by simpa using hall x hx) hr1url
  have h2 : (save_to_database lead2 n2 (save_to_database lead n1 db).1).1
      = db ++ [updateRow (extractLead lead2) (insertRow (extractLead lead) n1) n2] := by
    rw [h1]
    show (save_to_database lead2 n2 (db ++ [insertRow (extractLead lead) n1])).1 = _
    rw [h2']
    exact h3
  refine ⟨h2, ?_, updateRow_nonNullPreserved _ _ _⟩
  rw [h2, countUrl_append, countUrl_eq_zero db _ hfresh]
  have : (updateRow (extractLead lead2) (insertRow (extractLead lead) n1) n2).linkedin_url
      = leadUrl lead := hr1url
  simp [countUrl, this]

/-- Witness for C5: saving a lead with a phone and then a second record for
the same URL without one leaves one row and keeps the stored phone non-null. -/
theorem save_twice_one_row_witness :
    countUrl ((save_to_database [("linkedinUrl", Val.vStr "u1")] 2
        ((save_to_database
          [("linkedinUrl", Val.vStr "u1"), ("phone", Val.vStr "3055550100")]
          1 []).1)).1)
      (leadUrl [("linkedinUrl", Val.vStr "u1"), ("phone", Val.vStr "3055550100")])
      = 1
    ∧ nonNullPreserved
        (insertRow (extractLead
          [("linkedinUrl", Val.vStr "u1"), ("phone", Val.vStr "3055550100")]) 1)
        (updateRow (extractLead [("linkedinUrl", Val.vStr "u1")])
          (insertRow (extractLead
            [("linkedinUrl", Val.vStr "u1"), ("phone", Val.vStr "3055550100")]) 1)
          2) :=
  ⟨(save_twice_one_row
      [("linkedinUrl", Val.vStr "u1"), ("phone", Val.vStr "3055550100")]
      [("linkedinUrl", Val.vStr "u1")] [] 1 2 (by decide) (by decide) rfl).2.1,
   (save_twice_one_row
      [("linkedinUrl", Val.vStr "u1"), ("phone", Val.vStr "3055550100")]
      [("linkedinUrl", Val.vStr "u1")] [] 1 2 (by decide) (by decide) rfl).2.2⟩

/-- Lookup after assignment: the assigned key reads the new value, all other
keys are untouched. -/
theorem aget_aset (m : AList) (k : String) (v : Val) (k2 : String) :
    aget (aset m k v) k2 = if k = k2 then some v else aget m k2 := by
  induction m with
  | nil => simp [aset, aget]
  | cons kv rest ih =>
    obtain ⟨k0, v0⟩ := kv
    by_cases h0 : k0 = k
    · subst h0
      by_cases h2 : k0 = k2 <;> simp [aset, aget, h2]
    · by_cases h2 : k0 = k2
      · subst h2
        have hk2 : ¬(k = k0) := fun he => h0 he.symm
        simp [aset, aget, h0, hk2]
      · simp [aset, aget, h0, h2, ih]

/-- Choice with an empty right branch. -/
theorem oOr_none_right (a : Option Val) : oOr a none = a := by
  cases a <;> rfl

/-- Left-biased choice is associative. -/
theorem oOr_assoc (a b c : Option Val) :
    oOr (oOr a b) c = oOr a (oOr b c) := by
  cases a <;> rfl

/-- A key absent from a dict's key list reads as absent. -/
theorem aget_eq_none_of_not_mem_keys (l : AList) (k : String)
    (h : k ∉ l.map Prod.fst) : aget l k = none := by
  induction l with
  | nil => rfl
  | cons kv rest ih =>
    have hk0 : ¬(kv.1 = k) := fun he => h (by simp [he.symm])
    obtain ⟨k0, v0⟩ := kv
    simp only [aget, if_neg hk0]
    exact ih (fun hm => h (List.mem_cons_of_mem _ hm))

/-- The extras pass over one record never touches reserved field keys. -/
theorem extrasRecFold_aget_reserved (rec : AList) (out : AList) (k : String)
    (hres : FIELDS.contains k = true) :
    aget (extrasRecFold out rec) k = aget out k := by
  induction rec generalizing out with
  | nil => rfl
  | cons kv rest ih =>
    have hstep : extrasRecFold out (kv :: rest)
        = extrasRecFold (extrasStep out kv) rest := rfl
    rw [hstep, ih]
    unfold extrasStep
    by_cases hc : (FIELDS.contains kv.1 || kv.1 == "provider") = true
    · rw [if_pos hc]
    · have hne : ¬(kv.1 = k) := fun he => hc (by rw [he, hres]; rfl)
      by_cases hw : (nonNullV kv.2 && (aget out kv.1).isNone) = true
      · rw [if_neg hc, if_pos hw, aget_aset, if_neg hne]
      · rw [if_neg hc, if_neg hw]

/-- Effect of the extras pass over one duplicate-free record on a
non-reserved key: the already-chosen value wins, else the record's non-null
value for that key. -/
theorem extrasRecFold_aget (rec : AList) (out : AList) (k : String)
    (hk : FIELDS.contains k = false) (hkp : (k == "provider") = false)
    (hnd : (rec.map Prod.fst).Nodup) :
    aget (extrasRecFold out rec) k = oOr (aget out k) (firstNonNull rec k) := by
  induction rec generalizing out with
  | nil =>
    show aget out k = oOr (aget out k) (firstNonNull [] k)
    rw [show firstNonNull [] k = none from rfl, oOr_none_right]
  | cons kv rest ih =>
    obtain ⟨k0, v0⟩ := kv
    rw [List.map_cons, List.nodup_cons] at hnd
    obtain ⟨hk0notin, hnd2⟩ := hnd
    have hstep : extrasRecFold out ((k0, v0) :: rest)
        = extrasRecFold (extrasStep out (k0, v0)) rest := rfl
    rw [hstep]
    by_cases hc : (FIELDS.contains k0 || k0 == "provider") = true
    · have hne : ¬(k0 = k) := by
        intro he
        rw [he, hk, hkp] at hc
        exact absurd hc (by decide)
      have hskip : extrasStep out (k0, v0) = out := by
        unfold extrasStep
        rw [if_pos hc]
      rw [hskip, ih _ hnd2]
      have hfn : firstNonNull ((k0, v0) :: rest) k = firstNonNull rest k := by
        unfold firstNonNull
        simp [aget, hne]
      rw [hfn]
    · by_cases heq : k0 = k
      · subst heq
        by_cases hw : (nonNullV v0 && (aget out k0).isNone) = true
        · have hset : extrasStep out (k0, v0) = aset out k0 v0 := by
            unfold extrasStep
            rw [if_neg hc, if_pos hw]
          rw [hset, ih _ hnd2]
          have h1 : aget (aset out k0 v0) k0 = some v0 := by
            rw [aget_aset, if_pos rfl]
          rw [h1]
          obtain ⟨hv0, hnone⟩ := Bool.and_eq_true_iff.mp hw
          have hout : aget out k0 = none := by
            rcases ho : aget out k0 with _ | w
            · rfl
            · rw [ho] at hnone
              exact absurd hnone (by simp)
          have hfn : firstNonNull ((k0, v0) :: rest) k0 = some v0 := by
            unfold firstNonNull
            simp [aget, hv0]
          rw [hout, hfn]
          rfl
        · have hskip : extrasStep out (k0, v0) = out := by
            unfold extrasStep
            rw [if_neg hc, if_neg hw]
          rw [hskip, ih _ hnd2]
          have hfn : firstNonNull ((k0, v0) :: rest) k0
              = if nonNullV v0 then some v0 else none := by
            unfold firstNonNull
            simp [aget]
          by_cases hv : nonNullV v0 = true
          · have hsome : ∃ w, aget out k0 = some w := by
              rcases ho : aget out k0 with _ | w
              · exact absurd (by rw [hv, ho]; rfl : (nonNullV v0 && (aget out k0).isNone) = true) hw
              · exact ⟨w, rfl⟩
            obtain ⟨w, hw2⟩ := hsome
            rw [hw2, hfn]
            rfl
          · have hrest : aget rest k0 = none :=
              aget_eq_none_of_not_mem_keys rest k0 hk0notin
            have hfr : firstNonNull rest k0 = none := by
              unfold firstNonNull
              rw [hrest]
            rw [hfn, hfr, if_neg hv]
      · have hget : aget (extrasStep out (k0, v0)) k = aget out k := by
          unfold extrasStep
          by_cases hw : (nonNullV v0 && (aget out k0).isNone) = true
          · rw [if_neg hc, if_pos hw, aget_aset, if_neg heq]
          · rw [if_neg hc, if_neg hw]
        rw [ih _ hnd2, hget]
        have hfn : firstNonNull ((k0, v0) :: rest) k = firstNonNull rest k := by
          unfold firstNonNull
          simp [aget, heq]
        rw [hfn]

/-- The whole extras pass never touches reserved field keys. -/
theorem extrasFold_aget_reserved (records : List AList)
    (weights : List (Val × Rat)) (out : AList) (k : String)
    (hres : FIELDS.contains k = true) :
    aget (records.foldl (extrasProviderStep weights) out) k = aget out k := by
  induction records generalizing out with
  | nil => rfl
  | cons rec rest ih =>
    rw [show (rec :: rest).foldl (extrasProviderStep weights) out
        = rest.foldl (extrasProviderStep weights)
          (extrasProviderStep weights out rec) from rfl,
      ih]
    unfold extrasProviderStep
    by_cases hw : wlookup weights (providerOf rec) 0 < mkRat 1 2
    · rw [if_pos hw]
    · rw [if_neg hw]
      exact extrasRecFold_aget_reserved rec out k hres

/-- Effect of the whole extras pass on a non-reserved key: the already-chosen
value wins, else the first non-null value among records of weight at least
0.5 (default 0). -/
theorem extrasFold_aget (records : List AList) (weights : List (Val × Rat))
    (out : AList) (k : String)
    (hk : FIELDS.contains k = false) (hkp : (k == "provider") = false)
    (hnd : ∀ rec ∈ records, (rec.map Prod.fst).Nodup) :
    aget (records.foldl (extrasProviderStep weights) out) k
      = oOr (aget out k) (extrasSpec records weights k) := by
  induction records generalizing out with
  | nil =>
    show aget out k = oOr (aget out k) (extrasSpec [] weights k)
    rw [show extrasSpec [] weights k = none from rfl, oOr_none_right]
  | cons rec rest ih =>
    have hndrest : ∀ r ∈ rest, (r.map Prod.fst).Nodup :=
      fun r hr => hnd r (List.mem_cons_of_mem _ hr)
    have hndrec : (rec.map Prod.fst).Nodup := hnd rec (List.mem_cons_self _ _)
    rw [show (rec :: rest).foldl (extrasProviderStep weights) out
        = rest.foldl (extrasProviderStep weights)
          (extrasProviderStep weights out rec) from rfl]
    by_cases hw : wlookup weights (providerOf rec) 0 < mkRat 1 2
    · have hskip : extrasProviderStep weights out rec = out := by
        unfold extrasProviderStep
        rw [if_pos hw]
      rw [hskip, ih _ hndrest]
      have hspec : extrasSpec (rec :: rest) weights k
          = extrasSpec rest weights k := by
        unfold extrasSpec
        rw [List.filterMap_cons, if_neg (not_le.mpr hw)]
      rw [hspec]
    · have htake : extrasProviderStep weights out rec = extrasRecFold out rec := by
        unfold extrasProviderStep
        rw [if_neg hw]
      rw [htake, ih _ hndrest,
        extrasRecFold_aget rec out k hk hkp hndrec, oOr_assoc]
      have hspec : extrasSpec (rec :: rest) weights k
          = oOr (firstNonNull rec k) (extrasSpec rest weights k) := by
        unfold extrasSpec
        rw [List.filterMap_cons, if_pos (not_lt.mp hw)]
        rcases hf : firstNonNull rec k with _ | v <;> rfl
      rw [hspec]

/-- The pick phase never writes keys outside its field list. -/
theorem fieldsFold_aget_not_mem (fields : List String)
    (weights : List (Val × Rat)) (records : List AList) (out : AList)
    (k : String) (hk : k ∉ fields) :
    aget (fields.foldl (fieldStep weights records) out) k = aget out k := by
  induction fields generalizing out with
  | nil => rfl
  | cons f0 rest ih =>
    have hkr : k ∉ rest := fun hm => hk (List.mem_cons_of_mem _ hm)
    have hne : ¬(f0 = k) := fun he => hk (he ▸ List.mem_cons_self f0 rest)
    rw [show (f0 :: rest).foldl (fieldStep weights records) out
        = rest.foldl (fieldStep weights records)
          (fieldStep weights records out f0) from rfl,
      ih _ hkr]
    unfold fieldStep
    rcases hp : (pickFieldFold weights f0 records).2 with _ | v
    · rfl
    · show aget (aset out f0 v) k = aget out k
      rw [aget_aset, if_neg hne]

/-- The pick phase stores exactly the fold's best value for each of its
(duplicate-free) fields, falling back to the prior binding. -/
theorem fieldsFold_aget_mem (fields : List String)
    (weights : List (Val × Rat)) (records : List AList) (out : AList)
    (k : String) (hnd : fields.Nodup) (hk : k ∈ fields) :
    aget (fields.foldl (fieldStep weights records) out) k
      = oOr (pickFieldFold weights k records).2 (aget out k) := by
  induction fields generalizing out with
  | nil => cases hk
  | cons f0 rest ih =>
    rw [List.nodup_cons] at hnd
    obtain ⟨hf0, hnd2⟩ := hnd
    rw [show (f0 :: rest).foldl (fieldStep weights records) out
        = rest.foldl (fieldStep weights records)
          (fieldStep weights records out f0) from rfl]
    by_cases heq : f0 = k
    · subst heq
      rw [fieldsFold_aget_not_mem rest weights records _ f0 hf0]
      unfold fieldStep
      rcases hp : (pickFieldFold weights f0 records).2 with _ | v
      · rfl
      · show aget (aset out f0 v) f0 = oOr (some v) (aget out f0)
        rw [aget_aset, if_pos rfl]
        rfl
    · have hkr : k ∈ rest := by
        rcases List.mem_cons.mp hk with he | hm
        · exact absurd he.symm heq
        · exact hm
      rw [ih _ hnd2 hkr]
      have hget : aget (fieldStep weights records out f0) k = aget out k := by
        unfold fieldStep
        rcases hp : (pickFieldFold weights f0 records).2 with _ | v
        · rfl
        · show aget (aset out f0 v) k = aget out k
          rw [aget_aset, if_neg heq]
      rw [hget]

/-- The per-field pick fold is the best-so-far fold over the candidate
list. -/
theorem pickFold_eq_bestFold (weights : List (Val × Rat)) (field : String)
    (records : List AList) (acc : Rat × Option Val) :
    records.foldl (pickStep weights field) acc
      = (candList records weights field).foldl bestStep acc := by
  induction records generalizing acc with
  | nil => rfl
  | cons rec rest ih =>
    rw [List.foldl_cons]
    show rest.foldl (pickStep weights field) (pickStep weights field acc rec) = _
    rcases ha : aget rec field with _ | v
    · have hps : pickStep weights field acc rec = acc := by
        unfold pickStep
        rw [ha]
      have hce : candEntry weights field rec = none := by
        unfold candEntry
        rw [ha]
      have hcl : candList (rec :: rest) weights field
          = candList rest weights field := by
        unfold candList
        rw [List.filterMap_cons, hce]
      rw [hps, hcl, ih]
    · by_cases hv : nonNullV v = true
      · have hps : pickStep weights field acc rec
            = bestStep acc (wlookup weights (providerOf rec) (mkRat 1 2), v) := by
          unfold pickStep bestStep
          rw [ha]
          show (if nonNullV v = true then
              (let w := wlookup weights (providerOf rec) (mkRat 1 2)
               if acc.1 < w then (w, some v) else acc)
            else acc) = _
          rw [if_pos hv]
        have hce : candEntry weights field rec
            = some (wlookup weights (providerOf rec) (mkRat 1 2), v) := by
          unfold candEntry
          rw [ha]
          show (if nonNullV v = true then
              some (wlookup weights (providerOf rec) (mkRat 1 2), v)
            else none) = _
          rw [if_pos hv]
        have hcl : candList (rec :: rest) weights field
            = (wlookup weights (providerOf rec) (mkRat 1 2), v)
              :: candList rest weights field := by
          unfold candList
          rw [List.filterMap_cons, hce]
        rw [hps, hcl, List.foldl_cons, ih]
      · have hps : pickStep weights field acc rec = acc := by
          unfold pickStep
          rw [ha]
          show (if nonNullV v = true then
              (let w := wlookup weights (providerOf rec) (mkRat 1 2)
               if acc.1 < w then (w, some v) else acc)
            else acc) = acc
          rw [if_neg hv]
        have hce : candEntry weights field rec = none := by
          unfold candEntry
          rw [ha]
          show (if nonNullV v = true then
              some (wlookup weights (providerOf rec) (mkRat 1 2), v)
            else none) = none
          rw [if_neg hv]
        have hcl : candList (rec :: rest) weights field
            = candList rest weights field := by
          unfold candList
          rw [List.filterMap_cons, hce]
        rw [hps, hcl, ih]

/-- The spec-side argmax is empty only on the empty candidate list. -/
theorem argmaxFirst_eq_none (l : List (Rat × Val)) (h : argmaxFirst l = none) :
    l = [] := by
  cases l with
  | nil => rfl
  | cons p rest =>
    exfalso
    have hcons : argmaxFirst (p :: rest)
        = (match argmaxFirst rest with
          | none => some p
          | some q2 => if p.1 < q2.1 then some q2 else some p) := rfl
    rcases hr : argmaxFirst rest with _ | q2
    · have hval : argmaxFirst (p :: rest) = some p := by rw [hcons, hr]
      rw [hval] at h
      cases h
    · have hval : argmaxFirst (p :: rest)
          = if p.1 < q2.1 then some q2 else some p := by rw [hcons, hr]
      rw [hval] at h
      by_cases hc : p.1 < q2.1
      · rw [if_pos hc] at h
        cases h
      · rw [if_neg hc] at h
        cases h

/-- The best-so-far fold realises the spec-side argmax: from accumulator
(b, v) it returns the argmax when that strictly beats b, else the
accumulator. -/
theorem bestFold_argmax_some (l : List (Rat × Val)) (q : Rat × Val)
    (h : argmaxFirst l = some q) : ∀ (b : Rat) (v : Option Val),
    l.foldl bestStep (b, v) = if b < q.1 then (q.1, some q.2) else (b, v) := by
  induction l generalizing q with
  | nil => cases h
  | cons p rest ih =>
    intro b v
    have hfold : (p :: rest).foldl bestStep (b, v)
        = rest.foldl bestStep (if b < p.1 then (p.1, some p.2) else (b, v)) := rfl
    have hcons : argmaxFirst (p :: rest)
        = (match argmaxFirst rest with
          | none => some p
          | some q2 => if p.1 < q2.1 then some q2 else some p) := rfl
    rcases hr : argmaxFirst rest with _ | q2
    · have hval : argmaxFirst (p :: rest) = some p := by rw [hcons, hr]
      rw [hval] at h
      injection h with he
      subst he
      have hrest : rest = [] := argmaxFirst_eq_none rest hr
      subst hrest
      rw [hfold]
      rfl
    · have hval : argmaxFirst (p :: rest)
          = if p.1 < q2.1 then some q2 else some p := by rw [hcons, hr]
      rw [hval] at h
      by_cases hqp : p.1 < q2.1
      · rw [if_pos hqp] at h
        injection h with he
        subst he
        rw [hfold]
        by_cases hpb : b < p.1
        · rw [if_pos hpb, ih q2 hr p.1 (some p.2),
            if_pos hqp, if_pos (lt_trans hpb hqp)]
        · rw [if_neg hpb, ih q2 hr b v]
      · rw [if_neg hqp] at h
        injection h with he
        subst he
        rw [hfold]
        by_cases hpb : b < p.1
        · rw [if_pos hpb, ih q2 hr p.1 (some p.2), if_neg hqp]
        · rw [if_neg hpb, ih q2 hr b v,
            if_neg (not_lt.mpr (le_trans (not_lt.mp hqp) (not_lt.mp hpb)))]

/-- The spec-side argmax names a list element. -/
theorem argmaxFirst_mem (l : List (Rat × Val)) (q : Rat × Val)
    (h : argmaxFirst l = some q) : q ∈ l := by
  induction l generalizing q with
  | nil => cases h
  | cons p rest ih =>
    have hcons : argmaxFirst (p :: rest)
        = (match argmaxFirst rest with
          | none => some p
          | some q2 => if p.1 < q2.1 then some q2 else some p) := rfl
    rcases hr : argmaxFirst rest with _ | q2
    · have hval : argmaxFirst (p :: rest) = some p := by rw [hcons, hr]
      rw [hval] at h
      injection h with he
      rw [← he]
      exact List.mem_cons_self p rest
    · have hval : argmaxFirst (p :: rest)
          = if p.1 < q2.1 then some q2 else some p := by rw [hcons, hr]
      rw [hval] at h
      by_cases hc : p.1 < q2.1
      · rw [if_pos hc] at h
        injection h with he
        rw [← he]
        exact List.mem_cons_of_mem p (ih q2 hr)
      · rw [if_neg hc] at h
        injection h with he
        rw [← he]
        exact List.mem_cons_self p rest

/-- Weight lookups stay non-negative over a non-negative table and default. -/
theorem wlookup_nonneg (ws : List (Val × Rat)) (p : Val) (d : Rat)
    (hw : ∀ x ∈ ws, 0 ≤ x.2) (hd : 0 ≤ d) : 0 ≤ wlookup ws p d := by
  unfold wlookup
  rcases hf : ws.find? (fun kv => kv.1 == p) with _ | kv <;> rw [hf]
  · exact hd
  · exact hw kv (List.mem_of_find?_eq_some hf)

/-- Every candidate weight is non-negative when the table is. -/
theorem candList_weight_nonneg (records : List AList)
    (weights : List (Val × Rat)) (field : String)
    (hw : ∀ x ∈ weights, 0 ≤ x.2) (q : Rat × Val)
    (hq : q ∈ candList records weights field) : 0 ≤ q.1 := by
  unfold candList at hq
  rcases List.mem_filterMap.mp hq with ⟨rec, _, hf⟩
  rcases ha : aget rec field with _ | v
  · have hce : candEntry weights field rec = none := by
      unfold candEntry
      rw [ha]
    rw [hce] at hf
    cases hf
  · by_cases hv : nonNullV v = true
    · have hce : candEntry weights field rec
          = some (wlookup weights (providerOf rec) (mkRat 1 2), v) := by
        unfold candEntry
        rw [ha]
        show (if nonNullV v = true then
            some (wlookup weights (providerOf rec) (mkRat 1 2), v)
          else none) = _
        rw [if_pos hv]
      rw [hce] at hf
      injection hf with he
      rw [← he]
      exact wlookup_nonneg _ _ _ hw (by decide)
    · have hce : candEntry weights field rec = none := by
        unfold candEntry
        rw [ha]
        show (if nonNullV v = true then
            some (wlookup weights (providerOf rec) (mkRat 1 2), v)
          else none) = none
        rw [if_neg hv]
      rw [hce] at hf
      cases hf

/-- The per-field pick equals the spec-side argmax-with-first-tie over the
candidate list, for non-negative weights. -/
theorem pickFieldFold_spec (weights : List (Val × Rat)) (field : String)
    (records : List AList) (hw : ∀ x ∈ weights, 0 ≤ x.2) :
    (pickFieldFold weights field records).2
      = (argmaxFirst (candList records weights field)).map Prod.snd := by
  unfold pickFieldFold
  rw [pickFold_eq_bestFold weights field records ((-1 : Rat), (none : Option Val))]
  rcases hr : argmaxFirst (candList records weights field) with _ | q
  · rw [argmaxFirst_eq_none _ hr]
    rfl
  · have hq : 0 ≤ q.1 :=
      candList_weight_nonneg records weights field hw q (argmaxFirst_mem _ _ hr)
    have hlt : (-1 : Rat) < q.1 := lt_of_lt_of_le (by norm_num) hq
    rw [bestFold_argmax_some _ q hr (-1) none, if_pos hlt]
    rfl

/-- The effective weight table is non-negative when the GPS table is. -/
theorem effWeights_nonneg (records : List AList) (gps : List (Val × Rat))
    (hw : ∀ p ∈ gps, 0 ≤ p.2) : ∀ p ∈ effWeights records gps, 0 ≤ p.2 := by
  unfold effWeights
  by_cases he : gps.isEmpty
  · rw [if_pos he]
    intro p hp
    rcases List.mem_map.mp hp with ⟨d, _, he2⟩
    rw [← he2]
    exact (by decide : (0 : Rat) ≤ mkRat 1 2)
  · rw [if_neg he]
    exact hw

/-- C3 counterexample: with GPS stats present for provider A only, provider
B's extra field is dropped — the extras pass looks B up with default 0, not
the claimed 0.5 — even though B's field-pick weight does default to 0.5 and
the extra value is non-null. -/
theorem reconcile_extras_unknown_provider_cex :
    aget (reconcile_results
        [[("provider", Val.vStr "A"), ("phone", Val.vStr "a1")],
         [("provider", Val.vStr "B"), ("extra", Val.vStr "x")]]
        [(Val.vStr "A", mkRat 9 10)]) "extra" ≠ some (Val.vStr "x")
    ∧ aget (reconcile_results
        [[("provider", Val.vStr "A"), ("phone", Val.vStr "a1")],
         [("provider", Val.vStr "B"), ("extra", Val.vStr "x")]]
        [(Val.vStr "A", mkRat 9 10)]) "extra" = none
    ∧ wlookup [(Val.vStr "A", mkRat 9 10)] (Val.vStr "B") (mkRat 1 2) = mkRat 1 2
    ∧ nonNullV (Val.vStr "x") = true := by
  refine ⟨by decide, by decide, by decide, rfl⟩

/-- C3 amended: for every record list (with duplicate-free keys) and
non-negative GPS table, each reserved field of the reconciled record is the
non-null value of the provider with the highest weight (default 0.5, ties to
the provider listed first), and each non-reserved extra key carries the first
non-null value among providers whose weight — looked up with default 0, not
0.5, so providers outside a non-empty GPS table are skipped — is at least
0.5. -/
theorem reconcile_results_amended (records : List AList)
    (gps : List (Val × Rat)) (hw : ∀ p ∈ gps, 0 ≤ p.2)
    (hnd : ∀ rec ∈ records, (rec.map Prod.fst).Nodup) :
    (∀ f ∈ FIELDS, aget (reconcile_results records gps) f
      = (argmaxFirst (candList records (effWeights records gps) f)).map Prod.snd)
    ∧ (∀ k, FIELDS.contains k = false → (k == "provider") = false →
      aget (reconcile_results records gps) k
        = extrasSpec records (effWeights records gps) k) := by
  have hweff := effWeights_nonneg records gps hw
  constructor
  · intro f hf
    have hcont : FIELDS.contains f = true := List.elem_eq_true_of_mem hf
    unfold reconcile_results
    rw [extrasFold_aget_reserved records _ _ f hcont,
      fieldsFold_aget_mem FIELDS _ records [] f (by decide) hf,
      show aget ([] : AList) f = none from rfl, oOr_none_right]
    exact pickFieldFold_spec _ f records hweff
  · intro k hk hkp
    have hnm : k ∉ FIELDS := fun hm => by
      have hc : FIELDS.contains k = true := List.elem_eq_true_of_mem hm
      rw [hc] at hk
      cases hk
    unfold reconcile_results
    rw [extrasFold_aget records _ _ k hk hkp hnd,
      fieldsFold_aget_not_mem FIELDS _ records [] k hnm,
      show aget ([] : AList) k = none from rfl]
    rfl

/-- Witness for C3 amended at a concrete record list with no GPS stats: the
phone pick and an extra-field carry both match the spec-side choice. -/
theorem reconcile_results_amended_witness :
    aget (reconcile_results
        [[("provider", Val.vStr "A"), ("phone", Val.vStr "a1")],
         [("provider", Val.vStr "B"), ("phone", Val.vStr "b1"),
          ("hobby", Val.vStr "chess")]] []) "phone"
      = (argmaxFirst (candList
          [[("provider", Val.vStr "A"), ("phone", Val.vStr "a1")],
           [("provider", Val.vStr "B"), ("phone", Val.vStr "b1"),
            ("hobby", Val.vStr "chess")]]
          (effWeights
            [[("provider", Val.vStr "A"), ("phone", Val.vStr "a1")],
             [("provider", Val.vStr "B"), ("phone", Val.vStr "b1"),
              ("hobby", Val.vStr "chess")]] []) "phone")).map Prod.snd
    ∧ aget (reconcile_results
        [[("provider", Val.vStr "A"), ("phone", Val.vStr "a1")],
         [("provider", Val.vStr "B"), ("phone", Val.vStr "b1"),
          ("hobby", Val.vStr "chess")]] []) "hobby"
      = extrasSpec
          [[("provider", Val.vStr "A"), ("phone", Val.vStr "a1")],
           [("provider", Val.vStr "B"), ("phone", Val.vStr "b1"),
            ("hobby", Val.vStr "chess")]]
          (effWeights
            [[("provider", Val.vStr "A"), ("phone", Val.vStr "a1")],
             [("provider", Val.vStr "B"), ("phone", Val.vStr "b1"),
              ("hobby", Val.vStr "chess")]] []) "hobby" :=
  ⟨(reconcile_results_amended
      [[("provider", Val.vStr "A"), ("phone", Val.vStr "a1")],
       [("provider", Val.vStr "B"), ("phone", Val.vStr "b1"),
        ("hobby", Val.vStr "chess")]] []
      (by intro p hp; cases hp) (by decide)).1 "phone" (by decide),
   (reconcile_results_amended
      [[("provider", Val.vStr "A"), ("phone", Val.vStr "a1")],
       [("provider", Val.vStr "B"), ("phone", Val.vStr "b1"),
        ("hobby", Val.vStr "chess")]] []
      (by intro p hp; cases hp) (by decide)).2 "hobby" (by decide) (by decide)⟩

end LeadEngine
